import Mathlib

/-!
Verification of the session-store core of `express-cassandra-session-store`.

The embedding models the data path of `src/index.js`:
a table of rows `(sid, session)` where `session` is the JSON text produced
by `JSON.stringify`, the operations `get`, `set`, `touch`, `clear`, the JSON
codec (`JSON.stringify` / `JSON.parse`), the date handling used by the
expiry check (`new Date(isoString)`, `Date.prototype.toISOString`), and the
JavaScript property-access / truthiness / comparison semantics that the
expiry check `expires && expires <= Date.now()` relies on.
-/

namespace SessionStore

/-- JSON values as produced by `JSON.parse`.  Numbers are restricted to
integers: every numeric field this store itself writes (timestamps,
`originalMaxAge`) is an integer; fractional and exponent number forms are
outside the model. -/
inductive JVal where
  | null
  | bool (b : Bool)
  | num (n : Int)
  | str (s : String)
  | arr (xs : List JVal)
  | obj (fs : List (String × JVal))
deriving Repr

/-- Decimal digit to character, as used when printing numbers. -/
def digitChar : Nat → Char
  | 0 => '0' | 1 => '1' | 2 => '2' | 3 => '3' | 4 => '4'
  | 5 => '5' | 6 => '6' | 7 => '7' | 8 => '8' | _ => '9'

/-- Character to decimal digit value. -/
def digitVal (c : Char) : Nat := c.toNat - 48

/-- Decimal digits, most significant first, fuel-indexed (any fuel above
the number works; the wrapper `natDigits` supplies one). -/
def natDigitsF : Nat → Nat → List Char
  | 0, _ => []
  | f + 1, n =>
    if n < 10 then [digitChar n]
    else natDigitsF f (n / 10) ++ [digitChar (n % 10)]

/-- Decimal digits of a natural number, most significant first. -/
def natDigits (n : Nat) : List Char := natDigitsF (n + 1) n

/-- Decimal value of a digit string (fold, most significant first). -/
def digitsToNat (ds : List Char) : Nat :=
  ds.foldl (fun a c => 10 * a + digitVal c) 0

/-- Hexadecimal digit to character (lower case, as `JSON.stringify` emits). -/
def hexDigit (n : Nat) : Char :=
  if n < 10 then digitChar n
  else if n = 10 then 'a' else if n = 11 then 'b' else if n = 12 then 'c'
  else if n = 13 then 'd' else if n = 14 then 'e' else 'f'

/-- Hexadecimal digit value of a character, `none` if not a hex digit. -/
def hexVal (c : Char) : Option Nat :=
  if c.isDigit then some (c.toNat - 48)
  else if 'a' ≤ c ∧ c ≤ 'f' then some (c.toNat - 87)
  else if 'A' ≤ c ∧ c ≤ 'F' then some (c.toNat - 55)
  else none

/-- JSON whitespace (`space`, tab, line feed, carriage return). -/
def isWs (c : Char) : Bool :=
  c = ' ' || c = '\t' || c = '\n' || c = '\r'

/-- Skip leading JSON whitespace. -/
def skipWs : List Char → List Char
  | [] => []
  | c :: r => if isWs c then skipWs r else c :: r

/-- The escape sequence `JSON.stringify` emits for one character of a string:
quote and backslash are escaped, the named control characters use their short
escapes, other control characters use a `u00XX` escape, and everything else
is emitted literally. -/
def escChar (c : Char) : List Char :=
  if c = '"' then ['\\', '"']
  else if c = '\\' then ['\\', '\\']
  else if c = '\n' then ['\\', 'n']
  else if c = '\r' then ['\\', 'r']
  else if c = '\t' then ['\\', 't']
  else if c.toNat = 8 then ['\\', 'b']
  else if c.toNat = 12 then ['\\', 'f']
  else if c.toNat < 32 then
    ['\\', 'u', '0', '0', hexDigit (c.toNat / 16), hexDigit (c.toNat % 16)]
  else [c]

/-- String-body escaping of `JSON.stringify`. -/
def escape : List Char → List Char
  | [] => []
  | c :: r => escChar c ++ escape r

/-- A JSON string literal: quote, escaped body, quote. -/
def encStr (s : String) : List Char :=
  '"' :: (escape s.data ++ ['"'])

/-- A JSON integer literal, as `JSON.stringify` prints an integral number. -/
def encInt (n : Int) : List Char :=
  if n < 0 then '-' :: natDigits (-n).toNat else natDigits n.toNat

mutual

/-- `JSON.stringify` (character-list form, default formatting: no
whitespace, object fields in insertion order). -/
def encVal : JVal → List Char
  | .null => 'n' :: ['u', 'l', 'l']
  | .bool true => 't' :: ['r', 'u', 'e']
  | .bool false => 'f' :: ['a', 'l', 's', 'e']
  | .num n => encInt n
  | .str s => encStr s
  | .arr xs => '[' :: encItems xs
  | .obj fs => '\x7b' :: encFields fs

/-- Array body after the opening bracket. -/
def encItems : List JVal → List Char
  | [] => [']']
  | v :: vs => encVal v ++ encSep vs

/-- Array continuation: separator-prefixed items, then the closing bracket. -/
def encSep : List JVal → List Char
  | [] => [']']
  | v :: vs => ',' :: (encVal v ++ encSep vs)

/-- Object body after the opening brace. -/
def encFields : List (String × JVal) → List Char
  | [] => ['\x7d']
  | (k, v) :: fs => encStr k ++ ':' :: (encVal v ++ encFSep fs)

/-- Object continuation: separator-prefixed members, then the closing brace. -/
def encFSep : List (String × JVal) → List Char
  | [] => ['\x7d']
  | (k, v) :: fs => ',' :: (encStr k ++ ':' :: (encVal v ++ encFSep fs))

end

/-- `JSON.stringify` on a pure JSON value. -/
def stringify (v : JVal) : String := String.mk (encVal v)

/-- Decode one short escape code (the character after a backslash). -/
def unescCode : Char → Option Char
  | 'n' => some '\n'
  | 't' => some '\t'
  | 'r' => some '\r'
  | 'b' => some (Char.ofNat 0x08)
  | 'f' => some (Char.ofNat 0x0C)
  | '"' => some '"'
  | '/' => some '/'
  | '\\' => some '\\'
  | _ => none

/-- Parse a JSON string body (everything after the opening quote) up to the
closing quote.  Unescaped control characters are rejected, escape sequences
are decoded; `u` escapes take exactly four hex digits. -/
def parseStrBody : List Char → Option (List Char × List Char)
  | [] => none
  | c :: r =>
    if c = '"' then some ([], r)
    else if c = '\\' then
      match r with
      | [] => none
      | e :: r1 =>
        if e = 'u' then
          match r1 with
          | a :: b :: c2 :: d :: r2 =>
            match hexVal a, hexVal b, hexVal c2, hexVal d with
            | some ha, some hb, some hc, some hd =>
              (parseStrBody r2).map
                (fun p => (Char.ofNat (4096 * ha + 256 * hb + 16 * hc + hd) :: p.1, p.2))
            | _, _, _, _ => none
          | _ => none
        else
          match unescCode e with
          | some ch => (parseStrBody r1).map (fun p => (ch :: p.1, p.2))
          | none => none
    else if c.toNat < 32 then none
    else (parseStrBody r).map (fun p => (c :: p.1, p.2))

/-- Parse a run of decimal digits at the head of the input. -/
def parseNum (cs : List Char) : Option (Nat × List Char) :=
  let ds := cs.takeWhile Char.isDigit
  if ds = [] then none else some (digitsToNat ds, cs.dropWhile Char.isDigit)

/-- Head test used by the parser for closing-delimiter lookahead. -/
def headIs (c : Char) (cs : List Char) : Bool :=
  match cs with
  | [] => false
  | x :: _ => x = c

/-- Whether a key is among the keys of a member list. -/
def strIn (k : String) : List String → Bool
  | [] => false
  | s :: t => if s = k then true else strIn k t

/-- Last value bound to key `k`, defaulting to `dflt` (JavaScript duplicate
object keys: the last occurrence wins). -/
def lastVal (k : String) (dflt : JVal) : List (String × JVal) → JVal
  | [] => dflt
  | (k1, v1) :: t => if k1 = k then lastVal k v1 t else lastVal k dflt t

/-- Collapse duplicate keys the way JavaScript object construction does:
each key keeps its first position but takes its last value. -/
def dedupAux (seen : List String) : List (String × JVal) → List (String × JVal)
  | [] => []
  | (k, v) :: t =>
    if strIn k seen then dedupAux seen t
    else (k, lastVal k v t) :: dedupAux (k :: seen) t

/-- Duplicate-key collapse for a parsed member list. -/
def dedupFields (fs : List (String × JVal)) : List (String × JVal) :=
  dedupAux [] fs

mutual

/-- Recursive-descent JSON value parser (model of `JSON.parse`), fuel-indexed.
It accepts exactly the grammar `JSON.stringify` emits plus surrounding
whitespace and the standard string escapes; numbers are restricted to
integers (see `JVal`). -/
def parseVal : Nat → List Char → Option (JVal × List Char)
  | 0, _ => none
  | fuel + 1, cs =>
    match skipWs cs with
    | [] => none
    | c :: r =>
      if c.isDigit then
        match parseNum (c :: r) with
        | some (m, r1) => some (.num (Int.ofNat m), r1)
        | none => none
      else if c = '-' then
        match parseNum r with
        | some (m, r1) => some (.num (-(Int.ofNat m)), r1)
        | none => none
      else if c = 'n' then
        match r with
        | 'u' :: 'l' :: 'l' :: r1 => some (.null, r1)
        | _ => none
      else if c = 't' then
        match r with
        | 'r' :: 'u' :: 'e' :: r1 => some (.bool true, r1)
        | _ => none
      else if c = 'f' then
        match r with
        | 'a' :: 'l' :: 's' :: 'e' :: r1 => some (.bool false, r1)
        | _ => none
      else if c = '"' then
        match parseStrBody r with
        | some (s, r1) => some (.str (String.mk s), r1)
        | none => none
      else if c = '[' then
        let r1 := skipWs r
        if headIs ']' r1 then some (.arr [], r1.tail)
        else
          match parseElems fuel r with
          | some (vs, r2) => some (.arr vs, r2)
          | none => none
      else if c = '\x7b' then
        let r1 := skipWs r
        if headIs '\x7d' r1 then some (.obj [], r1.tail)
        else
          match parseMembers fuel r with
          | some (fs, r2) => some (.obj (dedupFields fs), r2)
          | none => none
      else none

/-- Parse one or more comma-separated array elements, then the closing
bracket. -/
def parseElems : Nat → List Char → Option (List JVal × List Char)
  | 0, _ => none
  | fuel + 1, cs =>
    match parseVal fuel cs with
    | none => none
    | some (v, r) =>
      match skipWs r with
      | ',' :: r1 =>
        match parseElems fuel r1 with
        | some (vs, r2) => some (v :: vs, r2)
        | none => none
      | ']' :: r1 => some ([v], r1)
      | _ => none

/-- Parse one or more comma-separated object members, then the closing
brace. -/
def parseMembers : Nat → List Char → Option (List (String × JVal) × List Char)
  | 0, _ => none
  | fuel + 1, cs =>
    match skipWs cs with
    | '"' :: r =>
      match parseStrBody r with
      | some (k, r1) =>
        match skipWs r1 with
        | ':' :: r2 =>
          match parseVal fuel r2 with
          | some (v, r3) =>
            match skipWs r3 with
            | ',' :: r4 =>
              match parseMembers fuel r4 with
              | some (fs, r5) => some ((String.mk k, v) :: fs, r5)
              | none => none
            | '\x7d' :: r4 => some ([(String.mk k, v)], r4)
            | _ => none
          | none => none
        | _ => none
      | none => none
    | _ => none

end

/-- `JSON.parse`: parse a complete JSON text, allowing surrounding
whitespace, rejecting trailing garbage.  `none` models a thrown
`SyntaxError`. -/
def parse (s : String) : Option JVal :=
  match parseVal (s.length + 1) s.data with
  | some (v, rest) => if skipWs rest = [] then some v else none
  | none => none

/-- Key absent from a member list. -/
def keyAbsent (k : String) : List (String × JVal) → Bool
  | [] => true
  | (k1, _) :: t => if k1 = k then false else keyAbsent k t

/-- Keys of a member list are pairwise distinct. -/
def keysOk : List (String × JVal) → Bool
  | [] => true
  | (k, _) :: t => keyAbsent k t && keysOk t

mutual

/-- A JSON value is in the image of JavaScript objects: every object node
has pairwise-distinct keys (a JavaScript object cannot hold a duplicate
key). -/
def wfVal : JVal → Bool
  | .null => true
  | .bool _ => true
  | .num _ => true
  | .str _ => true
  | .arr xs => wfList xs
  | .obj fs => keysOk fs && wfFields fs

/-- `wfVal` on every element of an array. -/
def wfList : List JVal → Bool
  | [] => true
  | v :: vs => wfVal v && wfList vs

/-- `wfVal` on every value of a member list. -/
def wfFields : List (String × JVal) → Bool
  | [] => true
  | (_, v) :: fs => wfVal v && wfFields fs

end

/-! ## Dates

The store compares `cookie.expires` against `Date.now()`; when the stored
value is a string it first converts it with `new Date(string)`.  Times are
milliseconds since the Unix epoch.  Civil-calendar conversion uses the
standard era-based Gregorian algorithms. -/

/-- Proleptic-Gregorian leap year. -/
def isLeap (y : Int) : Bool :=
  y.emod 4 = 0 && (y.emod 100 ≠ 0 || y.emod 400 = 0)

/-- Days in a month (`m` between 1 and 12). -/
def daysInMonth (y : Int) (m : Nat) : Nat :=
  if m = 2 then (if isLeap y then 29 else 28)
  else if m = 4 ∨ m = 6 ∨ m = 9 ∨ m = 11 then 30
  else 31

/-- Days since 1970-01-01 of a civil date (era-based Gregorian count). -/
def daysFromCivil (y : Int) (m d : Nat) : Int :=
  let y1 : Int := if m ≤ 2 then y - 1 else y
  let era : Int := y1.fdiv 400
  let yoe : Int := y1 - era * 400
  let mp : Int := (Int.ofNat m + 9).emod 12
  let doy : Int := (153 * mp + 2).fdiv 5 + Int.ofNat d - 1
  let doe : Int := yoe * 365 + yoe.fdiv 4 - yoe.fdiv 100 + doy
  era * 146097 + doe - 719468

/-- Civil date (year, month, day) of a count of days since 1970-01-01. -/
def civilFromDays (days : Int) : Int × Nat × Nat :=
  let z : Int := days + 719468
  let era : Int := z.fdiv 146097
  let doe : Int := z - era * 146097
  let yoe : Int := (doe - doe.fdiv 1460 + doe.fdiv 36524 - doe.fdiv 146096).fdiv 365
  let y : Int := yoe + era * 400
  let doy : Int := doe - (365 * yoe + yoe.fdiv 4 - yoe.fdiv 100)
  let mp : Int := (5 * doy + 2).fdiv 153
  let d : Int := doy - (153 * mp + 2).fdiv 5 + 1
  let m : Int := mp + (if mp < 10 then 3 else -9)
  (y + (if m ≤ 2 then 1 else 0), m.toNat, d.toNat)

/-- Left-pad a digit string with zeros to a given width. -/
def padDigits (w : Nat) (n : Nat) : List Char :=
  let ds := natDigits n
  List.replicate (w - ds.length) '0' ++ ds

/-- Model of `Date.prototype.toISOString` (the form `JSON.stringify` uses
for a `Date` value), for timestamps whose year is between 0 and 9999; the
expanded-year format of years outside that range is not modelled. -/
def toISOString (ms : Int) : String :=
  let days := ms.fdiv 86400000
  let msod := (ms.fmod 86400000).toNat
  let c := civilFromDays days
  let h := msod / 3600000
  let mi := msod % 3600000 / 60000
  let se := msod % 60000 / 1000
  let f := msod % 1000
  String.mk
    (padDigits 4 c.1.toNat ++ '-' :: padDigits 2 c.2.1 ++ '-' :: padDigits 2 c.2.2 ++
     'T' :: padDigits 2 h ++ ':' :: padDigits 2 mi ++ ':' :: padDigits 2 se ++
     '.' :: padDigits 3 f ++ ['Z'])

/-- Model of `new Date(string).getTime()` for the 24-character UTC ISO form
`YYYY-MM-DDTHH:MM:SS.mmmZ` that `toISOString` produces; `none` models an
`Invalid Date`.  Other layouts JavaScript would accept (date-only forms,
timezone offsets, expanded years) are outside the model and map to
`Invalid Date`. -/
def parseISO (s : String) : Option Int :=
  match s.data with
  | [y1, y2, y3, y4, '-', m1, m2, '-', d1, d2, 'T',
     h1, h2, ':', n1, n2, ':', s1, s2, '.', f1, f2, f3, 'Z'] =>
    if y1.isDigit && y2.isDigit && y3.isDigit && y4.isDigit &&
       m1.isDigit && m2.isDigit && d1.isDigit && d2.isDigit &&
       h1.isDigit && h2.isDigit && n1.isDigit && n2.isDigit &&
       s1.isDigit && s2.isDigit && f1.isDigit && f2.isDigit && f3.isDigit then
      let y : Int := Int.ofNat (digitsToNat [y1, y2, y3, y4])
      let mo := digitsToNat [m1, m2]
      let da := digitsToNat [d1, d2]
      let h := digitsToNat [h1, h2]
      let mi := digitsToNat [n1, n2]
      let se := digitsToNat [s1, s2]
      let f := digitsToNat [f1, f2, f3]
      if 1 ≤ mo && mo ≤ 12 && 1 ≤ da && da ≤ daysInMonth y mo &&
         h ≤ 23 && mi ≤ 59 && se ≤ 59 then
        some (daysFromCivil y mo da * 86400000 +
          (Int.ofNat (((h * 60 + mi) * 60 + se) * 1000 + f)))
      else none
    else none
  | _ => none

/-! ## JavaScript semantics used by `getSession`

`getSession` evaluates `session.cookie.expires`, converts a string value
with `new Date`, and tests `expires && expires <= Date.now()`.  The model
captures property access (including the `TypeError` thrown when reading a
property of `undefined` or `null`), truthiness, and the numeric coercion
of the comparison. -/

/-- Key constants used by the store. -/
def cookieKey : String := "cookie"

/-- The `expires` key of the cookie sub-structure. -/
def expiresKey : String := "expires"

/-- Result of reading a property of a JavaScript value. -/
inductive PropRes where
  | thrown
  | undefVal
  | val (v : JVal)
deriving Repr

/-- Look up a key in an object member list (keys are unique after parsing,
see `dedupFields`). -/
def lookupField : List (String × JVal) → String → Option JVal
  | [], _ => none
  | (k1, v1) :: t, k => if k1 = k then some v1 else lookupField t k

/-- Property read `v[k]` on a JSON value: reading on `null` throws a
`TypeError`; objects look the key up; primitives and arrays yield
`undefined` (the names this store reads are never own properties of a
JSON-parsed array or primitive). -/
def jsProp : JVal → String → PropRes
  | .null, _ => .thrown
  | .obj fs, k =>
    match lookupField fs k with
    | some v => .val v
    | none => .undefVal
  | _, _ => .undefVal

/-- Property read on the result of a previous read: reading a property of
`undefined` throws a `TypeError`. -/
def jsProp2 : PropRes → String → PropRes
  | .thrown, _ => .thrown
  | .undefVal, _ => .thrown
  | .val v, k => jsProp v k

/-- The value of the local `expires` after the `typeof` branch of
`getSession`: either `undefined`, a `Date` (`none` inside is an
`Invalid Date`), or the original non-string JSON value. -/
inductive ExpVal where
  | undefVal
  | dateVal (d : Option Int)
  | jv (v : JVal)
deriving Repr

/-- Evaluate `session.cookie.expires` then the string-to-`Date` conversion
of `getSession`; `none` models a thrown `TypeError`. -/
def evalExpires (session : JVal) : Option ExpVal :=
  match jsProp2 (jsProp session cookieKey) expiresKey with
  | .thrown => none
  | .undefVal => some .undefVal
  | .val (.str s) => some (.dateVal (parseISO s))
  | .val v => some (.jv v)

/-- JavaScript truthiness of the `expires` value (`expires && ...`):
`undefined` is falsy, a `Date` object is truthy even when invalid,
`null`/`false`/`0`/empty string are falsy, objects and arrays are truthy. -/
def expTruthy : ExpVal → Bool
  | .undefVal => false
  | .dateVal _ => true
  | .jv .null => false
  | .jv (.bool b) => b
  | .jv (.num n) => n ≠ 0
  | .jv (.str s) => s ≠ ""
  | .jv (.arr _) => true
  | .jv (.obj _) => true

/-- JavaScript `expires <= now` after coercion to a number: a valid `Date`
compares by its timestamp, an `Invalid Date` is `NaN` (every comparison
false), booleans coerce to 0/1, `null` to 0, numeric strings to their
value, an empty array to 0 and a singleton numeric array to its element;
other objects and arrays coerce to `NaN`.  (String and plain-object cases
are unreachable from `getSession`: strings were converted to `Date`.) -/
def expLeNow : ExpVal → Int → Bool
  | .undefVal, _ => false
  | .dateVal none, _ => false
  | .dateVal (some t), now => t ≤ now
  | .jv .null, now => 0 ≤ now
  | .jv (.bool b), now => (if b then (1 : Int) else 0) ≤ now
  | .jv (.num n), now => n ≤ now
  | .jv (.str s), now =>
    match s.toInt? with
    | some n => n ≤ now
    | none => false
  | .jv (.arr []), now => 0 ≤ now
  | .jv (.arr [.num n]), now => n ≤ now
  | .jv (.arr _), _ => false
  | .jv (.obj _), _ => false

/-- JavaScript truthiness of a parsed session value, as tested by
`if (currentSession)` in `touch`. -/
def jsTruthy : JVal → Bool
  | .null => false
  | .bool b => b
  | .num n => n ≠ 0
  | .str s => s ≠ ""
  | .arr _ => true
  | .obj _ => true

/-- Replace the value of key `k` in place, appending at the end when the
key is absent (JavaScript assignment to an object property). -/
def replaceField : List (String × JVal) → String → JVal → List (String × JVal)
  | [], k, w => [(k, w)]
  | (k1, v1) :: t, k, w =>
    if k1 = k then (k, w) :: t else (k1, v1) :: replaceField t k w

/-- Remove a key from a member list (a property assigned `undefined` is
omitted by `JSON.stringify`, which is equivalent to removing it from the
serialized object). -/
def removeField : List (String × JVal) → String → List (String × JVal)
  | [], _ => []
  | (k1, v1) :: t, k =>
    if k1 = k then removeField t k else (k1, v1) :: removeField t k

/-- The strict-mode assignment `target[k] = newv` followed by
serialization: assignment on an object updates the member list; on an
array it adds a named property that `JSON.stringify` ignores; on a
primitive or `null` strict mode throws a `TypeError` (`none`).  `newv =
none` is assignment of `undefined`, whose key `JSON.stringify` omits. -/
def jsAssign (target : JVal) (k : String) (newv : Option JVal) : Option JVal :=
  match target with
  | .obj fs =>
    match newv with
    | some w => some (.obj (replaceField fs k w))
    | none => some (.obj (removeField fs k))
  | .arr xs => some (.arr xs)
  | _ => none

/-! ## The store

A table is the rows of `defaultKeyspace.tableName`: pairs of
`sid` and the `session` text column.  The operations model the storage
success path of each request (`execute` resolves); `clear` additionally
models the failure path, which is where its missing `.catch` shows. -/

/-- The session table: rows `(sid, session)`. -/
abbrev Table := List (String × String)

/-- `SELECT ... WHERE sid = ?` (first matching row, as `results.rows[0]`). -/
def lookupRow : Table → String → Option String
  | [], _ => none
  | (k, p) :: t, sid => if k = sid then some p else lookupRow t sid

/-- `DELETE FROM ... WHERE sid = ?`. -/
def deleteRow : Table → String → Table
  | [], _ => []
  | (k, p) :: t, sid =>
    if k = sid then deleteRow t sid else (k, p) :: deleteRow t sid

/-- `INSERT INTO ... (sid, session) VALUES (?, ?)`: a primary-key upsert
that fully replaces any previous row for `sid`. -/
def upsertRow (tbl : Table) (sid payload : String) : Table :=
  (sid, payload) :: deleteRow tbl sid

/-- Errors `getSession` can surface: `formatError` is the `SyntaxError`
thrown by `JSON.parse` on a malformed payload, `typeError` the
`TypeError` thrown while evaluating `session.cookie.expires`. -/
inductive GetErr where
  | formatError
  | typeError
deriving Repr, DecidableEq

/-- What `getSession` hands its callback: `ok none` is "no session"
(`callback()` / `callback(null, undefined)`), `ok (some v)` is
`callback(null, session)`, `err e` is `callback(error)`. -/
inductive GetOut where
  | ok (s : Option JVal)
  | err (e : GetErr)
deriving Repr

/-- `getSession` of `src/index.js` (storage requests succeed): read the
row; a missing row or a falsy (`null`/empty) `session` column is "no
session"; otherwise `JSON.parse` the payload (a parse failure is surfaced
via the promise `.catch`), evaluate `session.cookie.expires` (a throw is
surfaced the same way), convert a string value with `new Date`, and if
`expires && expires <= now` delete the row and report "no session",
else hand back the parsed session unchanged. -/
def getSession (tbl : Table) (sid : String) (now : Int) : Table × GetOut :=
  match lookupRow tbl sid with
  | none => (tbl, .ok none)
  | some payload =>
    if payload = "" then (tbl, .ok none)
    else
      match parse payload with
      | none => (tbl, .err .formatError)
      | some session =>
        match evalExpires session with
        | none => (tbl, .err .typeError)
        | some ev =>
          if expTruthy ev && expLeNow ev now then (deleteRow tbl sid, .ok none)
          else (tbl, .ok (some session))

/-- `set` / `upsertSession`: `JSON.stringify` the session and upsert the
row; on storage success the callback receives no error. -/
def setOp (tbl : Table) (sid : String) (session : JVal) : Table × Option GetErr :=
  (upsertRow tbl sid (stringify session), none)

/-- What `touch` hands its callback, or `crashed` for a synchronous
uncaught throw (never reached with an object-shaped session argument). -/
inductive TouchOut where
  | cb (e : Option GetErr)
  | crashed
deriving Repr

/-- `touch` of `src/index.js`: fetch the current session; on error report
it; when absent succeed without writing; when present overwrite only the
`cookie` property with the caller's `session.cookie` and upsert the merged
session. -/
def touchOp (tbl : Table) (sid : String) (s : JVal) (now : Int) : Table × TouchOut :=
  match getSession tbl sid now with
  | (t1, .err e) => (t1, .cb (some e))
  | (t1, .ok none) => (t1, .cb none)
  | (t1, .ok (some cur)) =>
    if jsTruthy cur then
      match jsProp s cookieKey with
      | .thrown => (t1, .crashed)
      | .undefVal =>
        match jsAssign cur cookieKey none with
        | some merged => (upsertRow t1 sid (stringify merged), .cb none)
        | none => (t1, .crashed)
      | .val cv =>
        match jsAssign cur cookieKey (some cv) with
        | some merged => (upsertRow t1 sid (stringify merged), .cb none)
        | none => (t1, .crashed)
    else (t1, .cb none)

/-- Outcome of `clear` as seen by its caller. -/
inductive ClearOut where
  | calledBack (e : Option String)
  | noCallback
deriving Repr, DecidableEq

/-- `clear` of `src/index.js`: `TRUNCATE` then `callback()` on success.
The promise chain has a `.then` but no `.catch`, so when the truncate
request fails (`trunc = some error`) the rejection is unhandled and the
callback is never invoked; the error reaches nobody. -/
def clearOp (tbl : Table) (trunc : Option String) : Table × ClearOut :=
  match trunc with
  | none => ([], .calledBack none)
  | some _ => (tbl, .noCallback)

/-! ## Sessions as JavaScript runtime values

In memory a session may hold a `Date` object in `cookie.expires`;
`JSON.stringify` serializes a `Date` through `toJSON`/`toISOString` as an
ISO string.  `JSVal` is the runtime-value domain, `jsonOf` is what
serialization acts on, and `embedJS` embeds parse results back into the
runtime domain for structural comparison. -/

/-- JavaScript runtime values storable in a session: JSON values plus
`Date` objects (held as their millisecond timestamp). -/
inductive JSVal where
  | null
  | bool (b : Bool)
  | num (n : Int)
  | str (s : String)
  | date (ms : Int)
  | arr (xs : List JSVal)
  | obj (fs : List (String × JSVal))
deriving Repr

mutual

/-- The JSON value `JSON.stringify` serializes: a `Date` contributes its
`toISOString` text. -/
def jsonOf : JSVal → JVal
  | .null => .null
  | .bool b => .bool b
  | .num n => .num n
  | .str s => .str s
  | .date ms => .str (toISOString ms)
  | .arr xs => .arr (jsonOfList xs)
  | .obj fs => .obj (jsonOfFields fs)

/-- `jsonOf` on array elements. -/
def jsonOfList : List JSVal → List JVal
  | [] => []
  | v :: vs => jsonOf v :: jsonOfList vs

/-- `jsonOf` on object members. -/
def jsonOfFields : List (String × JSVal) → List (String × JVal)
  | [] => []
  | (k, v) :: fs => (k, jsonOf v) :: jsonOfFields fs

end

mutual

/-- Embedding of parse results into the runtime domain (no `Date` is ever
produced by `JSON.parse`). -/
def embedJS : JVal → JSVal
  | .null => .null
  | .bool b => .bool b
  | .num n => .num n
  | .str s => .str s
  | .arr xs => .arr (embedJSList xs)
  | .obj fs => .obj (embedJSFields fs)

/-- `embedJS` on array elements. -/
def embedJSList : List JVal → List JSVal
  | [] => []
  | v :: vs => embedJS v :: embedJSList vs

/-- `embedJS` on object members. -/
def embedJSFields : List (String × JVal) → List (String × JSVal)
  | [] => []
  | (k, v) :: fs => (k, embedJS v) :: embedJSFields fs

end

/-- `JSON.stringify` on a runtime session value. -/
def stringifyJS (v : JSVal) : String := stringify (jsonOf v)

/-! ## Measures and predicates used by the statements -/

mutual

/-- Node count of a value, the fuel the parser needs for it. -/
def nodesV : JVal → Nat
  | .arr xs => 1 + nodesL xs
  | .obj fs => 1 + nodesF fs
  | _ => 1

/-- Node count of an element list. -/
def nodesL : List JVal → Nat
  | [] => 0
  | v :: vs => 1 + nodesV v + nodesL vs

/-- Node count of a member list. -/
def nodesF : List (String × JVal) → Nat
  | [] => 0
  | kv :: fs => 1 + nodesV kv.2 + nodesF fs

end

/-- The continuation after a printed number must not begin with a digit
(inside JSON texts it is a separator, a closing delimiter, whitespace or
the end of input). -/
def noDigitHead : List Char → Bool
  | [] => true
  | c :: _ => !c.isDigit

/-- Round-trip property of one value: parsing its printed form consumes
exactly it, for any sufficient fuel and any non-digit continuation. -/
def RTP (v : JVal) : Prop :=
  wfVal v = true →
    ∀ f rest, nodesV v ≤ f → noDigitHead rest = true →
      parseVal f (encVal v ++ rest) = some (v, rest)

/-- A stored row for `sid` that the application-level policy has expired:
the payload decodes, `cookie` is a value, and `cookie.expires` is either
an ISO timestamp string whose instant is at or before `now`, or a nonzero
numeric timestamp at or before `now`. -/
def storedExpired (tbl : Table) (sid : String) (now : Int) : Prop :=
  ∃ p v c, lookupRow tbl sid = some p ∧ p ≠ "" ∧ parse p = some v ∧
    jsProp v cookieKey = .val c ∧
    ((∃ s t, jsProp c expiresKey = .val (.str s) ∧ parseISO s = some t ∧ t ≤ now) ∨
     (∃ n, jsProp c expiresKey = .val (.num n) ∧ n ≠ 0 ∧ n ≤ now))

/-- A cookie value whose `expires` is absent or in the future: the cookie
has no `expires` property, or a numeric timestamp after `now`, or an ISO
timestamp string whose instant is after `now`. -/
def liveExpires (c : JVal) (now : Int) : Prop :=
  jsProp c expiresKey = .undefVal ∨
  (∃ n, jsProp c expiresKey = .val (.num n) ∧ now < n) ∨
  (∃ s t, jsProp c expiresKey = .val (.str s) ∧ parseISO s = some t ∧ now < t)

/-- A stored row for `sid` holding the decoded session `v`, whose cookie
is a value that is live at `now`. -/
def storedLive (tbl : Table) (sid : String) (now : Int) (v : JVal) : Prop :=
  ∃ p c, lookupRow tbl sid = some p ∧ p ≠ "" ∧ parse p = some v ∧
    jsProp v cookieKey = .val c ∧ liveExpires c now

/-! ## Concrete values used to exercise the theorems -/

/-- An expired cookie: its ISO `expires` lies in the year 2000. -/
def exCookieExpired : JVal := .obj [(expiresKey, .str ("2000-01-01T00:00:00.000Z"))]

/-- A session holding only the expired cookie. -/
def exSessionExpired : JVal := .obj [(cookieKey, exCookieExpired)]

/-- A live cookie: its ISO `expires` lies in the year 2999. -/
def exCookieLive : JVal := .obj [(expiresKey, .str ("2999-01-01T00:00:00.000Z"))]

/-- A later live cookie: its ISO `expires` lies in the year 3000. -/
def exCookieLive2 : JVal := .obj [(expiresKey, .str ("3000-01-01T00:00:00.000Z"))]

/-- A live session with the live cookie and one application field. -/
def exSessionLive : JVal := .obj [(cookieKey, exCookieLive), (("data"), .str ("x"))]

/-- A concrete current time: 2025-10-12T00:00:00Z in epoch milliseconds. -/
def exNow : Int := 1760227200000

/-! ## Lemmas: digits and numbers -/

theorem digitVal_digitChar : ∀ n, n < 10 → digitVal (digitChar n) = n := by decide

theorem isDigit_digitChar : ∀ n, n < 10 → (digitChar n).isDigit = true := by decide

theorem natDigitsF_all_digit :
    ∀ f n, n < f → ∀ c ∈ natDigitsF f n, c.isDigit = true := by
  intro f
  induction f with
  | zero => omega
  | succ f ih =>
    intro n hn c hc
    rw [natDigitsF] at hc
    by_cases h : n < 10
    · rw [if_pos h, List.mem_singleton] at hc
      subst hc
      exact isDigit_digitChar n h
    · rw [if_neg h, List.mem_append] at hc
      rcases hc with hc | hc
      · have hlt : n / 10 < f := by
          have := Nat.div_lt_self (show 0 < n by omega) (show 1 < 10 by omega)
          omega
        exact ih (n / 10) hlt c hc
      · rw [List.mem_singleton] at hc
        subst hc
        exact isDigit_digitChar (n % 10) (Nat.mod_lt n (by omega))

theorem natDigits_all_digit (n : Nat) : ∀ c ∈ natDigits n, c.isDigit = true :=
  natDigitsF_all_digit (n + 1) n (by omega)

theorem natDigitsF_ne_nil : ∀ f n, n < f → natDigitsF f n ≠ [] := by
  intro f
  cases f with
  | zero => omega
  | succ f =>
    intro n _ h
    rw [natDigitsF] at h
    by_cases h10 : n < 10
    · rw [if_pos h10] at h
      exact List.cons_ne_nil _ _ h
    · rw [if_neg h10] at h
      rcases List.append_eq_nil.mp h with ⟨_, h2⟩
      exact List.cons_ne_nil _ _ h2

theorem natDigits_ne_nil (n : Nat) : natDigits n ≠ [] :=
  natDigitsF_ne_nil (n + 1) n (by omega)

theorem digitsToNat_append_one (ds : List Char) (c : Char) :
    digitsToNat (ds ++ [c]) = 10 * digitsToNat ds + digitVal c := by
  simp [digitsToNat, List.foldl_append]

theorem digitsToNat_natDigitsF :
    ∀ f n, n < f → digitsToNat (natDigitsF f n) = n := by
  intro f
  induction f with
  | zero => omega
  | succ f ih =>
    intro n hn
    rw [natDigitsF]
    by_cases h : n < 10
    · rw [if_pos h]
      simp [digitsToNat, digitVal_digitChar n h]
    · rw [if_neg h]
      have hlt : n / 10 < f := by
        have := Nat.div_lt_self (show 0 < n by omega) (show 1 < 10 by omega)
        omega
      rw [digitsToNat_append_one, ih (n / 10) hlt,
        digitVal_digitChar (n % 10) (Nat.mod_lt n (by omega))]
      omega

theorem digitsToNat_natDigits (n : Nat) : digitsToNat (natDigits n) = n :=
  digitsToNat_natDigitsF (n + 1) n (by omega)

theorem takeWhile_append_all (p : Char → Bool) (l r : List Char)
    (h : ∀ c ∈ l, p c = true) : (l ++ r).takeWhile p = l ++ r.takeWhile p := by
  induction l with
  | nil => simp
  | cons c t iht =>
    simp only [List.cons_append, List.takeWhile_cons, h c (by simp)]
    simp [iht (fun x hx => h x (by simp [hx]))]

theorem dropWhile_append_all (p : Char → Bool) (l r : List Char)
    (h : ∀ c ∈ l, p c = true) : (l ++ r).dropWhile p = r.dropWhile p := by
  induction l with
  | nil => simp
  | cons c t iht =>
    simp only [List.cons_append, List.dropWhile_cons, h c (by simp)]
    exact iht (fun x hx => h x (by simp [hx]))

theorem takeWhile_eq_nil_of_noDigitHead (r : List Char) (h : noDigitHead r = true) :
    r.takeWhile Char.isDigit = [] := by
  cases r with
  | nil => rfl
  | cons c t =>
    simp only [noDigitHead, Bool.not_eq_true'] at h
    simp [List.takeWhile_cons, h]

theorem dropWhile_eq_self_of_noDigitHead (r : List Char) (h : noDigitHead r = true) :
    r.dropWhile Char.isDigit = r := by
  cases r with
  | nil => rfl
  | cons c t =>
    simp only [noDigitHead, Bool.not_eq_true'] at h
    simp [List.dropWhile_cons, h]

theorem parseNum_natDigits (m : Nat) (rest : List Char) (h : noDigitHead rest = true) :
    parseNum (natDigits m ++ rest) = some (m, rest) := by
  rw [parseNum]
  simp only [takeWhile_append_all Char.isDigit _ _ (natDigits_all_digit m),
    takeWhile_eq_nil_of_noDigitHead rest h, List.append_nil,
    dropWhile_append_all Char.isDigit _ _ (natDigits_all_digit m),
    dropWhile_eq_self_of_noDigitHead rest h]
  rw [if_neg (natDigits_ne_nil m), digitsToNat_natDigits]

/-! ## Lemmas: characters, whitespace, string escaping -/

theorem isWs_eq_false_of_isDigit (c : Char) (h : c.isDigit = true) : isWs c = false := by
  rw [isWs]
  have h1 : ¬(c = ' ') := by rintro rfl; simp [Char.isDigit] at h
  have h2 : ¬(c = '\t') := by rintro rfl; simp [Char.isDigit] at h
  have h3 : ¬(c = '\n') := by rintro rfl; simp [Char.isDigit] at h
  have h4 : ¬(c = '\r') := by rintro rfl; simp [Char.isDigit] at h
  simp [h1, h2, h3, h4]

theorem skipWs_cons_of_not (c : Char) (r : List Char) (h : isWs c = false) :
    skipWs (c :: r) = c :: r := by
  simp [skipWs, h]

theorem hexVal_hexDigit : ∀ n, n < 16 → hexVal (hexDigit n) = some n := by decide

theorem char_eq_of_toNat (c : Char) (t : Nat) (h : c.toNat = t) : Char.ofNat t = c := by
  rw [← h, Char.ofNat_toNat]

theorem parseStrBody_escape :
    ∀ s rest, parseStrBody (escape s ++ '"' :: rest) = some (s, rest) := by
  intro s
  induction s with
  | nil =>
    intro rest
    rw [escape, List.nil_append, parseStrBody.eq_def ]
    simp
  | cons c cs ih =>
    intro rest
    rw [escape, List.append_assoc, escChar]
    by_cases h1 : c = '"'
    · subst h1
      rw [if_pos rfl, List.cons_append, List.cons_append, List.nil_append,
        parseStrBody.eq_def ]
      simp [unescCode, ih rest]
    · rw [if_neg h1]
      by_cases h2 : c = '\\'
      · subst h2
        rw [if_pos rfl, List.cons_append, List.cons_append, List.nil_append,
          parseStrBody.eq_def ]
        simp [unescCode, ih rest]
      · rw [if_neg h2]
        by_cases h3 : c = '\n'
        · subst h3
          rw [if_pos rfl, List.cons_append, List.cons_append, List.nil_append,
            parseStrBody.eq_def ]
          simp [unescCode, ih rest]
        · rw [if_neg h3]
          by_cases h4 : c = '\r'
          · subst h4
            rw [if_pos rfl, List.cons_append, List.cons_append, List.nil_append,
              parseStrBody.eq_def ]
            simp [unescCode, ih rest]
          · rw [if_neg h4]
            by_cases h5 : c = '\t'
            · subst h5
              rw [if_pos rfl, List.cons_append, List.cons_append, List.nil_append,
                parseStrBody.eq_def ]
              simp [unescCode, ih rest]
            · rw [if_neg h5]
              by_cases h6 : c.toNat = 8
              · rw [if_pos h6, List.cons_append, List.cons_append, List.nil_append,
                  parseStrBody.eq_def ]
                simp [unescCode, ih rest]
                exact char_eq_of_toNat c 8 h6
              · rw [if_neg h6]
                by_cases h7 : c.toNat = 12
                · rw [if_pos h7, List.cons_append, List.cons_append, List.nil_append,
                    parseStrBody.eq_def ]
                  simp [unescCode, ih rest]
                  exact char_eq_of_toNat c 12 h7
                · rw [if_neg h7]
                  by_cases h8 : c.toNat < 32
                  · rw [if_pos h8]
                    simp only [List.cons_append, List.nil_append]
                    rw [parseStrBody.eq_def ]
                    have e1 : hexVal (hexDigit (c.toNat / 16)) = some (c.toNat / 16) :=
                      hexVal_hexDigit _ (by omega)
                    have e2 : hexVal (hexDigit (c.toNat % 16)) = some (c.toNat % 16) :=
                      hexVal_hexDigit _ (by omega)
                    have e0 : hexVal '0' = some 0 := by decide
                    simp only [e0, e1, e2, ih rest, reduceIte, Option.map_some']
                    have e3 : 16 * (c.toNat / 16) + c.toNat % 16 = c.toNat := by omega
                    simp only [Nat.mul_zero, Nat.zero_add, e3]
                    simp [Char.ofNat_toNat]
                  · rw [if_neg h8]
                    simp only [List.cons_append, List.nil_append]
                    rw [parseStrBody.eq_def ]
                    simp [h1, h2, h8, ih rest]

/-! ## Lemmas: induction over JSON values -/

theorem memIndJVal (P : JVal → Prop)
    (h0 : P .null) (h1 : ∀ b, P (.bool b)) (h2 : ∀ n, P (.num n))
    (h3 : ∀ s, P (.str s))
    (h4 : ∀ xs, (∀ w ∈ xs, P w) → P (.arr xs))
    (h5 : ∀ fs, (∀ kv ∈ fs, P kv.2) → P (.obj fs)) : ∀ v, P v := by
  have key : ∀ n v, sizeOf v ≤ n → P v := by
    intro n
    induction n with
    | zero =>
      intro v hv
      cases v <;> simp_all
    | succ n ih =>
      intro v hv
      cases v with
      | null => exact h0
      | bool b => exact h1 b
      | num m => exact h2 m
      | str s => exact h3 s
      | arr xs =>
        refine h4 xs (fun w hw => ih w ?_)
        have hlt := List.sizeOf_lt_of_mem hw
        simp only [JVal.arr.sizeOf_spec] at hv
        omega
      | obj fs =>
        refine h5 fs (fun kv hkv => ih kv.2 ?_)
        have hlt := List.sizeOf_lt_of_mem hkv
        have hkv2 : sizeOf kv.2 < sizeOf kv := by
          cases kv with
          | mk a b => simp [Prod.mk.sizeOf_spec]
        simp only [JVal.obj.sizeOf_spec] at hv
        omega
  exact fun v => key (sizeOf v) v (le_refl _)

/-! ## Lemmas: heads of printed values -/

theorem isDigit_not_ws_close (c : Char) (h : c.isDigit = true) :
    isWs c = false ∧ (c = ']') = False ∧ (c = '\x7d') = False := by
  refine ⟨isWs_eq_false_of_isDigit c h, ?_, ?_⟩
  · simp only [eq_iff_iff, iff_false]
    rintro rfl
    simp [Char.isDigit] at h
  · simp only [eq_iff_iff, iff_false]
    rintro rfl
    simp [Char.isDigit] at h

theorem encVal_head (v : JVal) :
    ∃ c r, encVal v = c :: r ∧ isWs c = false ∧ ¬(c = ']') ∧ ¬(c = '\x7d') := by
  cases v with
  | null => exact ⟨'n', _, rfl, rfl, by decide, by decide⟩
  | bool b =>
    cases b
    · exact ⟨'f', _, rfl, rfl, by decide, by decide⟩
    · exact ⟨'t', _, rfl, rfl, by decide, by decide⟩
  | num n =>
    rw [encVal, encInt]
    by_cases hneg : n < 0
    · rw [if_pos hneg]
      exact ⟨'-', _, rfl, by decide, by decide, by decide⟩
    · rw [if_neg hneg]
      obtain ⟨c, r, hc⟩ := List.exists_cons_of_ne_nil (natDigits_ne_nil n.toNat)
      have hdig : c.isDigit = true := by
        refine natDigits_all_digit n.toNat c ?_
        rw [hc]
        simp
      obtain ⟨w1, w2, w3⟩ := isDigit_not_ws_close c hdig
      exact ⟨c, r, hc, w1, by simp [w2], by simp [w3]⟩
  | str s => exact ⟨'"', _, rfl, rfl, by decide, by decide⟩
  | arr xs => exact ⟨'[', _, rfl, rfl, by decide, by decide⟩
  | obj fs => exact ⟨'\x7b', _, rfl, rfl, by decide, by decide⟩

theorem skipWs_encVal (v : JVal) (rest : List Char) :
    skipWs (encVal v ++ rest) = encVal v ++ rest := by
  obtain ⟨c, r, hc, hws, _, _⟩ := encVal_head v
  rw [hc, List.cons_append, skipWs_cons_of_not c _ hws]

theorem headIs_close_encVal (v : JVal) (rest : List Char) :
    headIs ']' (skipWs (encVal v ++ rest)) = false ∧
    headIs '\x7d' (skipWs (encVal v ++ rest)) = false := by
  obtain ⟨c, r, hc, hws, hb, hd⟩ := encVal_head v
  rw [skipWs_encVal, hc, List.cons_append]
  constructor
  · simp [headIs, hb]
  · simp [headIs, hd]

theorem noDigitHead_encSep (vs : List JVal) (rest : List Char) :
    noDigitHead (encSep vs ++ rest) = true := by
  cases vs with
  | nil => rfl
  | cons w ws => rfl

theorem noDigitHead_encFSep (fs : List (String × JVal)) (rest : List Char) :
    noDigitHead (encFSep fs ++ rest) = true := by
  cases fs with
  | nil => rfl
  | cons kv fs2 => rfl

theorem strMk_data (s : String) : String.mk s.data = s := rfl

/-! ## Lemmas: duplicate-key collapse is the identity on well-formed objects -/

theorem keyAbsent_lastVal (k : String) (d : JVal) :
    ∀ t, keyAbsent k t = true → lastVal k d t = d := by
  intro t
  induction t generalizing d with
  | nil => intro _; rfl
  | cons kv t iht =>
    obtain ⟨k1, v1⟩ := kv
    intro h
    rw [keyAbsent] at h
    by_cases hk : k1 = k
    · rw [if_pos hk] at h
      exact absurd h (by simp)
    · rw [if_neg hk] at h
      rw [lastVal, if_neg hk]
      exact iht d h

theorem keyAbsent_mem (k : String) :
    ∀ t, keyAbsent k t = true → ∀ kv ∈ t, ¬(kv.1 = k) := by
  intro t
  induction t with
  | nil => intro _ kv hkv; simp at hkv
  | cons kv0 t iht =>
    obtain ⟨k1, v1⟩ := kv0
    intro h kv hkv
    rw [keyAbsent] at h
    by_cases hk : k1 = k
    · rw [if_pos hk] at h
      exact absurd h (by simp)
    · rw [if_neg hk] at h
      rcases List.mem_cons.mp hkv with hkv | hkv
      · subst hkv; exact hk
      · exact iht h kv hkv

theorem dedupAux_id :
    ∀ fs seen, keysOk fs = true →
      (∀ kv ∈ fs, strIn kv.1 seen = false) → dedupAux seen fs = fs := by
  intro fs
  induction fs with
  | nil => intro seen _ _; rfl
  | cons kv fs2 ihf =>
    obtain ⟨k, v⟩ := kv
    intro seen hok hseen
    rw [keysOk, Bool.and_eq_true] at hok
    obtain ⟨habs, hok2⟩ := hok
    rw [dedupAux, if_neg (by rw [hseen (k, v) (by simp)]; simp)]
    rw [keyAbsent_lastVal k v fs2 habs]
    rw [ihf (k :: seen) hok2 ?_]
    intro kv hkv
    rw [strIn, if_neg ?_]
    · exact hseen kv (by simp [hkv])
    · intro hkk
      exact keyAbsent_mem k fs2 habs kv hkv hkk.symm

theorem dedupFields_id (fs : List (String × JVal)) (h : keysOk fs = true) :
    dedupFields fs = fs :=
  dedupAux_id fs [] h (fun _ _ => rfl)

/-! ## Lemmas: the parser inverts the printer -/

theorem parseElems_enc :
    ∀ vs v, (∀ w ∈ v :: vs, RTP w) → wfList (v :: vs) = true →
      ∀ f rest, nodesL (v :: vs) ≤ f →
        parseElems f (encVal v ++ (encSep vs ++ rest)) = some (v :: vs, rest) := by
  intro vs
  induction vs with
  | nil =>
    intro v hall hwf f rest hn
    rw [wfList, Bool.and_eq_true] at hwf
    rw [nodesL, nodesL] at hn
    obtain ⟨f1, rfl⟩ : ∃ f1, f = f1 + 1 := ⟨f - 1, by omega⟩
    have hv : parseVal f1 (encVal v ++ (']' :: rest)) = some (v, ']' :: rest) :=
      hall v (by simp) hwf.1 f1 (']' :: rest) (by omega) rfl
    rw [parseElems]
    rw [encSep, List.singleton_append]
    rw [hv]
    simp [skipWs, isWs]
  | cons w ws ihw =>
    intro v hall hwf f rest hn
    rw [wfList, Bool.and_eq_true] at hwf
    rw [nodesL] at hn
    obtain ⟨f1, rfl⟩ : ∃ f1, f = f1 + 1 := ⟨f - 1, by omega⟩
    have hv : parseVal f1 (encVal v ++ (',' :: (encVal w ++ (encSep ws ++ rest))))
        = some (v, ',' :: (encVal w ++ (encSep ws ++ rest))) :=
      hall v (by simp) hwf.1 f1 _ (by omega) rfl
    have htail : parseElems f1 (encVal w ++ (encSep ws ++ rest)) = some (w :: ws, rest) := by
      refine ihw w (fun x hx => hall x ?_) hwf.2 f1 rest (by omega)
      simp only [List.mem_cons] at hx ⊢
      tauto
    rw [parseElems]
    rw [encSep, List.cons_append, List.append_assoc]
    rw [hv]
    simp [skipWs, isWs, htail]

theorem parseMembers_enc :
    ∀ fs k v, (∀ kv ∈ (k, v) :: fs, RTP kv.2) → wfFields ((k, v) :: fs) = true →
      ∀ f rest, nodesF ((k, v) :: fs) ≤ f →
        parseMembers f (encStr k ++ (':' :: (encVal v ++ (encFSep fs ++ rest))))
          = some ((k, v) :: fs, rest) := by
  intro fs
  induction fs with
  | nil =>
    intro k v hall hwf f rest hn
    rw [wfFields, Bool.and_eq_true] at hwf
    rw [nodesF, nodesF] at hn
    obtain ⟨f1, rfl⟩ : ∃ f1, f = f1 + 1 := ⟨f - 1, by omega⟩
    have hv : parseVal f1 (encVal v ++ ('\x7d' :: rest)) = some (v, '\x7d' :: rest) :=
      hall (k, v) (by simp) hwf.1 f1 _ (by omega) rfl
    rw [parseMembers]
    rw [encStr, encFSep, List.singleton_append, List.cons_append, List.append_assoc,
      List.singleton_append]
    rw [skipWs_cons_of_not '"' _ (by decide)]
    simp only [parseStrBody_escape]
    rw [skipWs_cons_of_not ':' _ (by decide)]
    simp [skipWs, isWs, hv, strMk_data]
  | cons kv2 fs2 ihf =>
    obtain ⟨k2, v2⟩ := kv2
    intro k v hall hwf f rest hn
    rw [wfFields, Bool.and_eq_true] at hwf
    rw [nodesF] at hn
    obtain ⟨f1, rfl⟩ : ∃ f1, f = f1 + 1 := ⟨f - 1, by omega⟩
    have hv : parseVal f1
        (encVal v ++ (',' :: (encStr k2 ++ (':' :: (encVal v2 ++ (encFSep fs2 ++ rest))))))
        = some (v, ',' :: (encStr k2 ++ (':' :: (encVal v2 ++ (encFSep fs2 ++ rest))))) :=
      hall (k, v) (by simp) hwf.1 f1 _ (by omega) rfl
    have htail : parseMembers f1 (encStr k2 ++ (':' :: (encVal v2 ++ (encFSep fs2 ++ rest))))
        = some ((k2, v2) :: fs2, rest) := by
      refine ihf k2 v2 (fun x hx => hall x ?_) hwf.2 f1 rest (by omega)
      simp only [List.mem_cons] at hx ⊢
      tauto
    rw [parseMembers]
    rw [encStr, encFSep, List.cons_append, List.cons_append, List.append_assoc,
      List.singleton_append]
    rw [skipWs_cons_of_not '"' _ (by decide)]
    simp only [parseStrBody_escape]
    rw [skipWs_cons_of_not ':' _ (by decide)]
    simp [skipWs, isWs, hv, htail, strMk_data]

theorem nodesV_pos (v : JVal) : 1 ≤ nodesV v := by
  cases v <;> simp [nodesV]

theorem parseVal_null (f : Nat) (r : List Char) :
    parseVal (f + 1) ('n' :: 'u' :: 'l' :: 'l' :: r) = some (.null, r) := rfl

theorem parseVal_true (f : Nat) (r : List Char) :
    parseVal (f + 1) ('t' :: 'r' :: 'u' :: 'e' :: r) = some (.bool true, r) := rfl

theorem parseVal_false (f : Nat) (r : List Char) :
    parseVal (f + 1) ('f' :: 'a' :: 'l' :: 's' :: 'e' :: r) = some (.bool false, r) := rfl

theorem parseVal_quote (f : Nat) (r : List Char) :
    parseVal (f + 1) ('"' :: r) =
      (match parseStrBody r with
       | some (s, r1) => some (.str (String.mk s), r1)
       | none => none) := rfl

theorem parseVal_minus (f : Nat) (r : List Char) :
    parseVal (f + 1) ('-' :: r) =
      (match parseNum r with
       | some (m, r1) => some (.num (-(Int.ofNat m)), r1)
       | none => none) := rfl

theorem parseVal_lbracket (f : Nat) (r : List Char) :
    parseVal (f + 1) ('[' :: r) =
      (let r1 := skipWs r
       if headIs ']' r1 then some (.arr [], r1.tail)
       else
         match parseElems f r with
         | some (vs, r2) => some (.arr vs, r2)
         | none => none) := rfl

theorem parseVal_lbrace (f : Nat) (r : List Char) :
    parseVal (f + 1) ('\x7b' :: r) =
      (let r1 := skipWs r
       if headIs '\x7d' r1 then some (.obj [], r1.tail)
       else
         match parseMembers f r with
         | some (fs, r2) => some (.obj (dedupFields fs), r2)
         | none => none) := rfl

theorem parseVal_digit (f : Nat) (c : Char) (r : List Char) (h : c.isDigit = true) :
    parseVal (f + 1) (c :: r) =
      (match parseNum (c :: r) with
       | some (m, r1) => some (.num (Int.ofNat m), r1)
       | none => none) := by
  rw [parseVal]
  rw [skipWs_cons_of_not c r (isWs_eq_false_of_isDigit c h)]
  simp [h]

theorem RTP_all : ∀ v, RTP v := by
  refine memIndJVal RTP ?_ ?_ ?_ ?_ ?_ ?_
  · intro _ f rest hn _
    obtain ⟨f1, rfl⟩ : ∃ f1, f = f1 + 1 := ⟨f - 1, by simp [nodesV] at hn; omega⟩
    exact parseVal_null f1 rest
  · intro b
    intro _ f rest hn _
    obtain ⟨f1, rfl⟩ : ∃ f1, f = f1 + 1 := ⟨f - 1, by simp [nodesV] at hn; omega⟩
    cases b with
    | true => exact parseVal_true f1 rest
    | false => exact parseVal_false f1 rest
  · intro n
    intro _ f rest hn hr
    obtain ⟨f1, rfl⟩ : ∃ f1, f = f1 + 1 := ⟨f - 1, by simp [nodesV] at hn; omega⟩
    by_cases hneg : n < 0
    · rw [show encVal (.num n) = '-' :: natDigits (-n).toNat from by rw [encVal, encInt, if_pos hneg]]
      rw [List.cons_append, parseVal_minus]
      rw [parseNum_natDigits (-n).toNat rest hr]
      show some (JVal.num (-Int.ofNat (-n).toNat), rest) = some (JVal.num n, rest)
      have h1 : Int.ofNat (-n).toNat = -n := by
        rw [Int.ofNat_eq_coe]
        exact Int.toNat_of_nonneg (by omega)
      rw [h1, neg_neg]
    · rw [show encVal (.num n) = natDigits n.toNat from by rw [encVal, encInt, if_neg hneg]]
      obtain ⟨c, cr, hc⟩ := List.exists_cons_of_ne_nil (natDigits_ne_nil n.toNat)
      have hdig : c.isDigit = true := by
        refine natDigits_all_digit n.toNat c ?_
        rw [hc]; simp
      rw [hc, List.cons_append, parseVal_digit f1 c _ hdig, ← List.cons_append, ← hc]
      rw [parseNum_natDigits n.toNat rest hr]
      show some (JVal.num (Int.ofNat n.toNat), rest) = some (JVal.num n, rest)
      have h1 : Int.ofNat n.toNat = n := by
        rw [Int.ofNat_eq_coe]
        exact Int.toNat_of_nonneg (by omega)
      rw [h1]
  · intro s
    intro _ f rest hn _
    obtain ⟨f1, rfl⟩ : ∃ f1, f = f1 + 1 := ⟨f - 1, by simp [nodesV] at hn; omega⟩
    rw [show encVal (.str s) = '"' :: (escape s.data ++ ['"']) from rfl]
    rw [List.cons_append, List.append_assoc, List.singleton_append, parseVal_quote]
    rw [parseStrBody_escape]
  · intro xs hmem
    intro hwf f rest hn _
    cases xs with
    | nil =>
      obtain ⟨f1, rfl⟩ : ∃ f1, f = f1 + 1 := ⟨f - 1, by simp [nodesV] at hn; omega⟩
      exact rfl
    | cons v vs =>
      rw [wfVal] at hwf
      rw [nodesV] at hn
      obtain ⟨f1, rfl⟩ : ∃ f1, f = f1 + 1 := ⟨f - 1, by omega⟩
      have hall : ∀ w ∈ v :: vs, RTP w := fun w hw => hmem w hw
      have helems : parseElems f1 (encVal v ++ (encSep vs ++ rest)) = some (v :: vs, rest) :=
        parseElems_enc vs v hall hwf f1 rest (by omega)
      have hb := (headIs_close_encVal v (encSep vs ++ rest)).1
      rw [show encVal (.arr (v :: vs)) = '[' :: (encVal v ++ encSep vs) from rfl]
      rw [List.cons_append, List.append_assoc, parseVal_lbracket]
      simp only [hb, if_false, Bool.false_eq_true, helems]
  · intro fs hmem
    intro hwf f rest hn _
    cases fs with
    | nil =>
      obtain ⟨f1, rfl⟩ : ∃ f1, f = f1 + 1 := ⟨f - 1, by simp [nodesV] at hn; omega⟩
      exact rfl
    | cons kv fs2 =>
      obtain ⟨k, v⟩ := kv
      rw [wfVal, Bool.and_eq_true] at hwf
      rw [nodesV] at hn
      obtain ⟨f1, rfl⟩ : ∃ f1, f = f1 + 1 := ⟨f - 1, by omega⟩
      have hall : ∀ x ∈ (k, v) :: fs2, RTP x.2 := fun x hx => hmem x hx
      have hflds : parseMembers f1 (encStr k ++ (':' :: (encVal v ++ (encFSep fs2 ++ rest))))
          = some ((k, v) :: fs2, rest) :=
        parseMembers_enc fs2 k v hall hwf.2 f1 rest (by omega)
      have hd : headIs '\x7d'
          (skipWs (encStr k ++ (':' :: (encVal v ++ (encFSep fs2 ++ rest))))) = false := by
        rw [encStr, List.cons_append, skipWs_cons_of_not '"' _ (by decide)]
        rfl
      rw [show encVal (.obj ((k, v) :: fs2))
          = '\x7b' :: (encStr k ++ ':' :: (encVal v ++ encFSep fs2)) from rfl]
      rw [List.cons_append, List.append_assoc, List.cons_append, List.append_assoc]
      rw [parseVal_lbrace]
      simp only [hd, Bool.false_eq_true, if_false, hflds]
      rw [dedupFields_id _ hwf.1]

theorem nodes_le_enc : ∀ v, nodesV v ≤ (encVal v).length := by
  refine memIndJVal (fun v => nodesV v ≤ (encVal v).length) ?_ ?_ ?_ ?_ ?_ ?_
  · simp [nodesV, encVal]
  · intro b
    cases b <;> simp [nodesV, encVal]
  · intro n
    have h1 : nodesV (.num n) = 1 := by simp [nodesV]
    rw [h1, show encVal (.num n) = encInt n from rfl, encInt]
    by_cases hneg : n < 0
    · rw [if_pos hneg]
      simp
    · rw [if_neg hneg]
      have := natDigits_ne_nil n.toNat
      exact Nat.one_le_iff_ne_zero.mpr (by simpa [List.length_eq_zero] using this)
  · intro s
    have h1 : nodesV (.str s) = 1 := by simp [nodesV]
    rw [h1, show encVal (.str s) = encStr s from rfl, encStr]
    simp
  · intro xs hmem
    have hsep : ∀ vs, (∀ w ∈ vs, nodesV w ≤ (encVal w).length) →
        1 + nodesL vs ≤ (encSep vs).length := by
      intro vs
      induction vs with
      | nil => intro _; simp [nodesL, encSep]
      | cons w ws ihw =>
        intro hws
        rw [nodesL, encSep]
        have hw := hws w (by simp)
        have htl := ihw (fun x hx => hws x (by simp [hx]))
        simp only [List.length_cons, List.length_append]
        omega
    cases xs with
    | nil => simp [nodesV, nodesL, encVal, encItems]
    | cons v vs =>
      have hv := hmem v (by simp)
      have htl := hsep vs (fun w hw => hmem w (by simp [hw]))
      rw [show nodesV (.arr (v :: vs)) = 1 + nodesL (v :: vs) from by simp [nodesV]]
      rw [show encVal (.arr (v :: vs)) = '[' :: (encVal v ++ encSep vs) from rfl]
      rw [nodesL]
      simp only [List.length_cons, List.length_append]
      omega
  · intro fs hmem
    have hsep : ∀ gs, (∀ kv ∈ gs, nodesV kv.2 ≤ (encVal kv.2).length) →
        1 + nodesF gs ≤ (encFSep gs).length := by
      intro gs
      induction gs with
      | nil => intro _; simp [nodesF, encFSep]
      | cons kv gs2 ihg =>
        obtain ⟨k2, v2⟩ := kv
        intro hgs
        rw [nodesF, encFSep]
        have hv2 : nodesV v2 ≤ (encVal v2).length := hgs (k2, v2) (by simp)
        have htl := ihg (fun x hx => hgs x (by simp [hx]))
        simp only [List.length_cons, List.length_append]
        omega
    cases fs with
    | nil => simp [nodesV, nodesF, encVal, encFields]
    | cons kv fs2 =>
      obtain ⟨k, v⟩ := kv
      have hv : nodesV v ≤ (encVal v).length := hmem (k, v) (by simp)
      have htl := hsep fs2 (fun x hx => hmem x (by simp [hx]))
      rw [show nodesV (.obj ((k, v) :: fs2)) = 1 + nodesF ((k, v) :: fs2) from by simp [nodesV]]
      rw [show encVal (.obj ((k, v) :: fs2))
          = '\x7b' :: (encStr k ++ ':' :: (encVal v ++ encFSep fs2)) from rfl]
      rw [nodesF]
      simp only [List.length_cons, List.length_append]
      omega

theorem parse_stringify (v : JVal) (h : wfVal v = true) : parse (stringify v) = some v := by
  have hf : nodesV v ≤ (encVal v).length + 1 :=
    Nat.le_succ_of_le (nodes_le_enc v)
  have h1 : parseVal ((encVal v).length + 1) (encVal v ++ []) = some (v, []) :=
    RTP_all v h ((encVal v).length + 1) [] hf rfl
  rw [List.append_nil] at h1
  rw [parse]
  rw [show (stringify v).data = encVal v from rfl]
  rw [show (stringify v).length = (encVal v).length from rfl]
  rw [h1]
  rfl

/-! ## Lemmas: the table and `getSession` -/

theorem stringify_ne_empty (v : JVal) : stringify v ≠ "" := by
  obtain ⟨c, r, hc, _, _, _⟩ := encVal_head v
  rw [stringify, hc]
  intro h
  have h2 : c :: r = ([] : List Char) := congrArg String.data h
  exact absurd h2 (by simp)

theorem lookupRow_deleteRow (tbl : Table) (sid : String) :
    lookupRow (deleteRow tbl sid) sid = none := by
  induction tbl with
  | nil => rfl
  | cons row t iht =>
    obtain ⟨k, p⟩ := row
    rw [deleteRow]
    by_cases hk : k = sid
    · rw [if_pos hk]
      exact iht
    · rw [if_neg hk, lookupRow, if_neg hk]
      exact iht

theorem lookupRow_upsertRow_self (tbl : Table) (sid p : String) :
    lookupRow (upsertRow tbl sid p) sid = some p := by
  rw [upsertRow, lookupRow, if_pos rfl]

theorem jsProp_obj_of_lookup (fs : List (String × JVal)) (k : String) (c : JVal)
    (h : jsProp (.obj fs) k = .val c) : lookupField fs k = some c := by
  rw [jsProp] at h
  cases hl : lookupField fs k with
  | none => rw [hl] at h; cases h
  | some u => rw [hl] at h; cases h; rfl

theorem getSession_absent (tbl : Table) (sid : String) (now : Int)
    (h : lookupRow tbl sid = none) : getSession tbl sid now = (tbl, .ok none) := by
  rw [getSession, h]

theorem getSession_badPayload (tbl : Table) (sid : String) (now : Int) (p : String)
    (hlook : lookupRow tbl sid = some p) (hp : p ≠ "") (hparse : parse p = none) :
    getSession tbl sid now = (tbl, .err .formatError) := by
  rw [getSession, hlook]
  simp only [if_neg hp, hparse]

theorem getSession_expired (tbl : Table) (sid : String) (now : Int)
    (h : storedExpired tbl sid now) :
    getSession tbl sid now = (deleteRow tbl sid, .ok none) := by
  obtain ⟨p, v, c, hlook, hp, hparse, hcookie, hexp⟩ := h
  rw [getSession, hlook]
  simp only [if_neg hp, hparse]
  rcases hexp with ⟨s, t, hexpv, hiso, hle⟩ | ⟨n, hexpv, hn0, hle⟩
  · have hev : evalExpires v = some (.dateVal (some t)) := by
      rw [evalExpires, hcookie, jsProp2, hexpv]
      simp [hiso]
    rw [hev]
    simp [expTruthy, expLeNow, hle]
  · have hev : evalExpires v = some (.jv (.num n)) := by
      rw [evalExpires, hcookie, jsProp2, hexpv]
    rw [hev]
    simp [expTruthy, expLeNow, hn0, hle]

theorem getSession_live (tbl : Table) (sid : String) (now : Int) (v : JVal)
    (h : storedLive tbl sid now v) :
    getSession tbl sid now = (tbl, .ok (some v)) := by
  obtain ⟨p, c, hlook, hp, hparse, hcookie, hexp⟩ := h
  rw [getSession, hlook]
  simp only [if_neg hp, hparse]
  rcases hexp with hexpv | ⟨n, hexpv, hlt⟩ | ⟨s, t, hexpv, hiso, hlt⟩
  · have hev : evalExpires v = some .undefVal := by
      rw [evalExpires, hcookie, jsProp2, hexpv]
    rw [hev]
    simp [expTruthy]
  · have hev : evalExpires v = some (.jv (.num n)) := by
      rw [evalExpires, hcookie, jsProp2, hexpv]
    have hcond : (expTruthy (.jv (.num n)) && expLeNow (.jv (.num n)) now) = false := by
      simp only [expTruthy, expLeNow, Bool.and_eq_false_iff, decide_eq_false_iff_not]
      omega
    rw [hev]
    simp [hcond]
  · have hev : evalExpires v = some (.dateVal (some t)) := by
      rw [evalExpires, hcookie, jsProp2, hexpv]
      simp [hiso]
    have hcond : (expTruthy (.dateVal (some t)) && expLeNow (.dateVal (some t)) now) = false := by
      simp only [expTruthy, expLeNow, Bool.true_and, decide_eq_false_iff_not]
      omega
    rw [hev]
    simp [hcond]

theorem getSession_noCookie (tbl : Table) (sid : String) (now : Int) (p : String)
    (fs : List (String × JVal))
    (hlook : lookupRow tbl sid = some p) (hp : p ≠ "")
    (hparse : parse p = some (.obj fs)) (hnc : lookupField fs cookieKey = none) :
    getSession tbl sid now = (tbl, .err .typeError) := by
  rw [getSession, hlook]
  simp only [if_neg hp, hparse]
  have hev : evalExpires (.obj fs) = none := by
    rw [evalExpires, jsProp, hnc]
    rfl
  rw [hev]

theorem lookupField_replaceField_self (fs : List (String × JVal)) (k : String) (w : JVal) :
    lookupField (replaceField fs k w) k = some w := by
  induction fs with
  | nil => rw [replaceField, lookupField, if_pos rfl]
  | cons kv t iht =>
    obtain ⟨k1, v1⟩ := kv
    rw [replaceField]
    by_cases hk : k1 = k
    · rw [if_pos hk, lookupField, if_pos rfl]
    · rw [if_neg hk, lookupField, if_neg hk]
      exact iht

theorem lookupField_replaceField_other (fs : List (String × JVal)) (k k2 : String) (w : JVal)
    (hne : ¬(k2 = k)) : lookupField (replaceField fs k w) k2 = lookupField fs k2 := by
  induction fs with
  | nil =>
    rw [replaceField, lookupField, lookupField, if_neg (fun h => hne h.symm), lookupField]
  | cons kv t iht =>
    obtain ⟨k1, v1⟩ := kv
    rw [replaceField]
    by_cases hk : k1 = k
    · rw [if_pos hk, lookupField, lookupField, hk,
        if_neg (fun h => hne h.symm), if_neg (fun h => hne h.symm)]
    · rw [if_neg hk, lookupField, lookupField]
      by_cases hk2 : k1 = k2
      · rw [if_pos hk2, if_pos hk2]
      · rw [if_neg hk2, if_neg hk2]
        exact iht

theorem keyAbsent_replaceField_present (t : List (String × JVal)) (k : String) (w u : JVal)
    (k2 : String) (h : lookupField t k = some u) :
    keyAbsent k2 (replaceField t k w) = keyAbsent k2 t := by
  induction t with
  | nil => cases h
  | cons kv t2 iht =>
    obtain ⟨k1, v1⟩ := kv
    rw [lookupField] at h
    rw [replaceField]
    by_cases hk : k1 = k
    · rw [if_pos hk, keyAbsent, keyAbsent]
      subst hk
      rfl
    · rw [if_neg hk] at h ⊢
      rw [keyAbsent, keyAbsent]
      by_cases hk2 : k1 = k2
      · rw [if_pos hk2, if_pos hk2]
      · rw [if_neg hk2, if_neg hk2]
        exact iht h

theorem keysOk_replaceField (fs : List (String × JVal)) (k : String) (w u : JVal)
    (h : lookupField fs k = some u) (hok : keysOk fs = true) :
    keysOk (replaceField fs k w) = true := by
  induction fs with
  | nil => cases h
  | cons kv t iht =>
    obtain ⟨k1, v1⟩ := kv
    rw [lookupField] at h
    rw [keysOk, Bool.and_eq_true] at hok
    rw [replaceField]
    by_cases hk : k1 = k
    · rw [if_pos hk, keysOk, Bool.and_eq_true]
      subst hk
      exact ⟨hok.1, hok.2⟩
    · rw [if_neg hk] at h ⊢
      rw [keysOk, Bool.and_eq_true]
      refine ⟨?_, iht h hok.2⟩
      rw [keyAbsent_replaceField_present t k w u k1 h]
      exact hok.1

theorem wfFields_replaceField (fs : List (String × JVal)) (k : String) (w u : JVal)
    (h : lookupField fs k = some u) (hwf : wfFields fs = true) (hw : wfVal w = true) :
    wfFields (replaceField fs k w) = true := by
  induction fs with
  | nil => cases h
  | cons kv t iht =>
    obtain ⟨k1, v1⟩ := kv
    rw [lookupField] at h
    rw [wfFields, Bool.and_eq_true] at hwf
    rw [replaceField]
    by_cases hk : k1 = k
    · rw [if_pos hk, wfFields, Bool.and_eq_true]
      exact ⟨hw, hwf.2⟩
    · rw [if_neg hk] at h ⊢
      rw [wfFields, Bool.and_eq_true]
      exact ⟨hwf.1, iht h hwf.2⟩

theorem wfVal_obj_replace (fs : List (String × JVal)) (k : String) (w u : JVal)
    (h : lookupField fs k = some u) (hwf : wfVal (.obj fs) = true) (hw : wfVal w = true) :
    wfVal (.obj (replaceField fs k w)) = true := by
  rw [wfVal, Bool.and_eq_true] at hwf ⊢
  exact ⟨keysOk_replaceField fs k w u h hwf.1, wfFields_replaceField fs k w u h hwf.2 hw⟩

/-! ## Claims -/

/-- Claim C1, counterexample to the claim as stated: a stored session whose
`cookie.expires` is the numeric timestamp 0 — a value at or before the
current time — is not reaped.  `get` returns the session and leaves the row
in place, because the guard `expires && expires <= Date.now()` is falsy at
the number 0. -/
theorem claim_c1_counterexample :
    ((0 : Int) ≤ exNow) ∧
    getSession [(("sid0"), stringify (.obj [(cookieKey, .obj [(expiresKey, .num 0)])]))]
        ("sid0") exNow
      = ([(("sid0"), stringify (.obj [(cookieKey, .obj [(expiresKey, .num 0)])]))],
         .ok (some (.obj [(cookieKey, .obj [(expiresKey, .num 0)])]))) :=
  ⟨by decide, rfl⟩

/-- Claim C1 (amended): for every stored session whose `cookie.expires` is
an ISO timestamp string whose instant is at or before the current time, or
a nonzero numeric timestamp at or before the current time, `get` issues a
delete for that row and yields "no session" (undefined result), and a
subsequent `get` of the same sessionId also yields "no session" — reaping
is idempotent.  The amendment excludes a numeric `cookie.expires` equal to
0, which the code's truthiness guard treats as unset (see the
counterexample). -/
theorem claim_c1_theorem (tbl : Table) (sid : String) (now : Int)
    (h : storedExpired tbl sid now) :
    getSession tbl sid now = (deleteRow tbl sid, .ok none) ∧
    getSession (deleteRow tbl sid) sid now = (deleteRow tbl sid, .ok none) :=
  ⟨getSession_expired tbl sid now h,
   getSession_absent (deleteRow tbl sid) sid now (lookupRow_deleteRow tbl sid)⟩

/-- Claim C1 witness: the amended theorem applied to a concrete expired
row. -/
theorem claim_c1_witness :
    getSession [(("s1"), stringify exSessionExpired)] ("s1") exNow
      = (deleteRow [(("s1"), stringify exSessionExpired)] ("s1"), .ok none) ∧
    getSession (deleteRow [(("s1"), stringify exSessionExpired)] ("s1")) ("s1") exNow
      = (deleteRow [(("s1"), stringify exSessionExpired)] ("s1"), .ok none) :=
  claim_c1_theorem _ _ _
    ⟨stringify exSessionExpired, exSessionExpired, exCookieExpired, rfl,
     stringify_ne_empty _, rfl, rfl,
     Or.inl ⟨("2000-01-01T00:00:00.000Z"), 946684800000, rfl, rfl, by decide⟩⟩

/-- Claim C2: for every stored session whose `cookie.expires` is in the
future or absent, `get` completes with no error and delivers the decoded
session object, unchanged, as the second argument of the callback. -/
theorem claim_c2_theorem (tbl : Table) (sid : String) (now : Int) (v : JVal)
    (h : storedLive tbl sid now v) :
    getSession tbl sid now = (tbl, .ok (some v)) :=
  getSession_live tbl sid now v h

/-- Claim C2 witness: the theorem applied to a concrete live row. -/
theorem claim_c2_witness :
    storedLive [(("s1"), stringify exSessionLive)] ("s1") exNow exSessionLive ∧
    getSession [(("s1"), stringify exSessionLive)] ("s1") exNow
      = ([(("s1"), stringify exSessionLive)], .ok (some exSessionLive)) := by
  have h : storedLive [(("s1"), stringify exSessionLive)] ("s1") exNow exSessionLive :=
    ⟨stringify exSessionLive, exCookieLive, rfl, stringify_ne_empty _, rfl, rfl,
     Or.inr (Or.inr ⟨("2999-01-01T00:00:00.000Z"), 32472144000000, rfl, rfl, by decide⟩)⟩
  exact ⟨h, claim_c2_theorem _ _ _ _ h⟩

/-- Claim C3, counterexample to the claim as stated: a session whose
`cookie.expires` is a `Date` (timestamp value) is encoded as an ISO string,
and decoding gives back the string — not the timestamp value — so
`decode(encode(s))` is not structurally equal to `s`.  The timestamp is
recovered only inside the expiry check, never in the returned object. -/
theorem claim_c3_counterexample :
    parse (stringifyJS (JSVal.obj [(cookieKey, JSVal.obj [(expiresKey, JSVal.date 0)])]))
      = some (JVal.obj [(cookieKey,
          JVal.obj [(expiresKey, JVal.str ("1970-01-01T00:00:00.000Z"))])]) ∧
    embedJS (JVal.obj [(cookieKey,
        JVal.obj [(expiresKey, JVal.str ("1970-01-01T00:00:00.000Z"))])])
      ≠ JSVal.obj [(cookieKey, JSVal.obj [(expiresKey, JSVal.date 0)])] :=
  ⟨rfl, by simp [embedJS, embedJSFields]⟩

/-- Claim C3 (amended): for every session object already in JSON form
(every value a JSON value, object keys distinct — in particular
`cookie.expires` as an ISO string or a number), `decode(encode(s))` is
structurally equal to `s`: `JSON.parse` inverts `JSON.stringify`.  A
`Date`-valued `cookie.expires` is encoded as an ISO string and comes back
as that string (see the counterexample). -/
theorem claim_c3_theorem (v : JVal) (h : wfVal v = true) :
    parse (stringify v) = some v :=
  parse_stringify v h

/-- Claim C3 witness: the round trip evaluated on a concrete session. -/
theorem claim_c3_witness :
    wfVal exSessionLive = true ∧ parse (stringify exSessionLive) = some exSessionLive :=
  ⟨rfl, claim_c3_theorem exSessionLive rfl⟩

/-- Claim C5 (code bug): a storage-layer failure of the `TRUNCATE` request
issued by `clear` does not propagate to the caller — the promise chain in
`clear` has no `.catch`, so on failure the callback is never invoked at
all, rather than receiving the error as the claim requires. -/
theorem claim_c5_theorem :
    clearOp [(("sid1"), ("payload"))] (some ("boom"))
      = ([(("sid1"), ("payload"))], .noCallback) ∧
    ClearOut.noCallback ≠ ClearOut.calledBack (some ("boom")) :=
  ⟨rfl, by decide⟩

/-- Claim C6, counterexample to the claim as stated: the empty payload
string is malformed (`JSON.parse` fails on it), yet `get` reports "no
session" with no error instead of a `FormatError` — the falsy-payload
check `if (!session)` short-circuits before decoding. -/
theorem claim_c6_counterexample :
    parse ("") = none ∧
    getSession [(("s1"), (""))] ("s1") exNow = ([(("s1"), (""))], .ok none) :=
  ⟨rfl, rfl⟩

/-- Claim C6 (amended): for every stored row whose payload string is
nonempty and malformed (decoding fails), `get` delivers a `FormatError` to
the caller and the malformed row is left in place — `get` never deletes a
row because of a decode failure.  The amendment excludes the empty (or
`null`) payload, which the code treats as an absent session with no error
(see the counterexample). -/
theorem claim_c6_theorem (tbl : Table) (sid : String) (now : Int) (p : String)
    (hlook : lookupRow tbl sid = some p) (hp : p ≠ "") (hparse : parse p = none) :
    getSession tbl sid now = (tbl, .err .formatError) :=
  getSession_badPayload tbl sid now p hlook hp hparse

/-- Claim C6 witness: the amended theorem applied to a concrete malformed
row (a lone opening brace). -/
theorem claim_c6_witness :
    parse ("\x7b") = none ∧
    getSession [(("s1"), ("\x7b"))] ("s1") exNow
      = ([(("s1"), ("\x7b"))], .err .formatError) :=
  ⟨rfl, claim_c6_theorem _ _ _ _ rfl (by decide) rfl⟩

/-- Claim C9: for every sessionId with no stored row, `get` completes with
no error and an undefined session result — absence is success with an
empty result, not an error. -/
theorem claim_c9_theorem (tbl : Table) (sid : String) (now : Int)
    (h : lookupRow tbl sid = none) : getSession tbl sid now = (tbl, .ok none) :=
  getSession_absent tbl sid now h

/-- Claim C9 witness: fetching a never-set id from an empty table. -/
theorem claim_c9_witness :
    getSession [] ("never-set") 0 = (([] : Table), .ok none) :=
  claim_c9_theorem [] ("never-set") 0 rfl

/-- Claim C10: for every stored row whose payload decodes to an object with
no `cookie` field, `get` delivers an error to the caller (evaluating
`session.cookie.expires` throws, and the `.catch` surfaces it) rather than
treating the session as never-expiring and returning it. -/
theorem claim_c10_theorem (tbl : Table) (sid : String) (now : Int) (p : String)
    (fs : List (String × JVal))
    (hlook : lookupRow tbl sid = some p) (hp : p ≠ "")
    (hparse : parse p = some (.obj fs)) (hnc : lookupField fs cookieKey = none) :
    getSession tbl sid now = (tbl, .err .typeError) :=
  getSession_noCookie tbl sid now p fs hlook hp hparse hnc

/-- Claim C10 witness: the theorem applied to a stored object without a
`cookie` field. -/
theorem claim_c10_witness :
    getSession [(("s1"), stringify (.obj [(("data"), .str ("x"))]))] ("s1") exNow
      = ([(("s1"), stringify (.obj [(("data"), .str ("x"))]))], .err .typeError) :=
  claim_c10_theorem _ _ _ _ [(("data"), JVal.str ("x"))] rfl (stringify_ne_empty _) rfl rfl

/-- Claim C4: for every live (non-expired) stored session, `touch` replaces
only the `cookie` sub-structure of the stored record with the caller's
`session.cookie` and leaves every other application field unchanged: the
store afterwards holds the merged session, a fetch returns it (when the new
cookie is live), the merged record's `cookie` is the caller's cookie, and
every other key keeps its stored value. -/
theorem claim_c4_theorem (tbl : Table) (sid : String) (now now2 : Int)
    (p : String) (fs : List (String × JVal)) (c1 : JVal) (s c2 : JVal)
    (hlook : lookupRow tbl sid = some p) (hp : p ≠ "")
    (hparse : parse p = some (.obj fs)) (hwfv : wfVal (.obj fs) = true)
    (hc1 : jsProp (.obj fs) cookieKey = .val c1) (hlive1 : liveExpires c1 now)
    (hsc : jsProp s cookieKey = .val c2) (hwfc2 : wfVal c2 = true)
    (hlive2 : liveExpires c2 now2) :
    touchOp tbl sid s now
      = (upsertRow tbl sid (stringify (.obj (replaceField fs cookieKey c2))), .cb none) ∧
    getSession (upsertRow tbl sid (stringify (.obj (replaceField fs cookieKey c2)))) sid now2
      = (upsertRow tbl sid (stringify (.obj (replaceField fs cookieKey c2))),
         .ok (some (.obj (replaceField fs cookieKey c2)))) ∧
    lookupField (replaceField fs cookieKey c2) cookieKey = some c2 ∧
    (∀ k2, ¬(k2 = cookieKey) →
      lookupField (replaceField fs cookieKey c2) k2 = lookupField fs k2) := by
  have hget : getSession tbl sid now = (tbl, .ok (some (.obj fs))) :=
    getSession_live tbl sid now _ ⟨p, c1, hlook, hp, hparse, hc1, hlive1⟩
  have hassign : jsAssign (.obj fs) cookieKey (some c2)
      = some (.obj (replaceField fs cookieKey c2)) := by rw [jsAssign]
  have ht : touchOp tbl sid s now
      = (upsertRow tbl sid (stringify (.obj (replaceField fs cookieKey c2))), .cb none) := by
    rw [touchOp, hget]
    simp [jsTruthy, hsc, hassign]
  have hlf : lookupField fs cookieKey = some c1 := jsProp_obj_of_lookup fs cookieKey c1 hc1
  have hwfm : wfVal (.obj (replaceField fs cookieKey c2)) = true :=
    wfVal_obj_replace fs cookieKey c2 c1 hlf hwfv hwfc2
  refine ⟨ht, ?_, lookupField_replaceField_self fs cookieKey c2,
    fun k2 hk2 => lookupField_replaceField_other fs cookieKey k2 c2 hk2⟩
  exact getSession_live _ _ _ _
    ⟨stringify (.obj (replaceField fs cookieKey c2)), c2, lookupRow_upsertRow_self _ _ _,
     stringify_ne_empty _, parse_stringify _ hwfm,
     by rw [jsProp, lookupField_replaceField_self], hlive2⟩

/-- Claim C4 witness: the theorem applied to a concrete live row with a
`data` field, touched with a later cookie. -/
theorem claim_c4_witness :
    touchOp [(("s1"), stringify exSessionLive)] ("s1")
        (.obj [(cookieKey, exCookieLive2)]) exNow
      = (upsertRow [(("s1"), stringify exSessionLive)] ("s1")
          (stringify (.obj (replaceField [(cookieKey, exCookieLive), (("data"), JVal.str ("x"))]
            cookieKey exCookieLive2))), .cb none) ∧
    getSession (upsertRow [(("s1"), stringify exSessionLive)] ("s1")
          (stringify (.obj (replaceField [(cookieKey, exCookieLive), (("data"), JVal.str ("x"))]
            cookieKey exCookieLive2)))) ("s1") exNow
      = (upsertRow [(("s1"), stringify exSessionLive)] ("s1")
          (stringify (.obj (replaceField [(cookieKey, exCookieLive), (("data"), JVal.str ("x"))]
            cookieKey exCookieLive2))),
         .ok (some (.obj (replaceField [(cookieKey, exCookieLive), (("data"), JVal.str ("x"))]
            cookieKey exCookieLive2)))) ∧
    lookupField (replaceField [(cookieKey, exCookieLive), (("data"), JVal.str ("x"))]
        cookieKey exCookieLive2) cookieKey = some exCookieLive2 ∧
    lookupField (replaceField [(cookieKey, exCookieLive), (("data"), JVal.str ("x"))]
        cookieKey exCookieLive2) ("data") = some (JVal.str ("x")) := by
  have h := claim_c4_theorem [(("s1"), stringify exSessionLive)] ("s1") exNow exNow
    (stringify exSessionLive) [(cookieKey, exCookieLive), (("data"), JVal.str ("x"))]
    exCookieLive (.obj [(cookieKey, exCookieLive2)]) exCookieLive2
    rfl (stringify_ne_empty _) rfl rfl rfl
    (Or.inr (Or.inr ⟨("2999-01-01T00:00:00.000Z"), 32472144000000, rfl, rfl, by decide⟩))
    rfl rfl
    (Or.inr (Or.inr ⟨("3000-01-01T00:00:00.000Z"), 32503680000000, rfl, rfl, by decide⟩))
  refine ⟨h.1, h.2.1, h.2.2.1, ?_⟩
  rw [h.2.2.2 ("data") (by decide)]
  rfl

/-- Claim C7: `set(id, A)` followed by `set(id, B)` fully replaces the
record — the stored row for `id` holds exactly the serialization of `B`,
and a subsequent fetch (with `B` decodable and live) yields exactly `B`,
never a partial merge of `A` and `B`. -/
theorem claim_c7_theorem (tbl : Table) (sid : String) (now : Int) (A B c : JVal)
    (hwf : wfVal B = true) (hc : jsProp B cookieKey = .val c) (hlive : liveExpires c now) :
    (setOp (setOp tbl sid A).1 sid B).1
      = upsertRow (upsertRow tbl sid (stringify A)) sid (stringify B) ∧
    lookupRow (setOp (setOp tbl sid A).1 sid B).1 sid = some (stringify B) ∧
    getSession (setOp (setOp tbl sid A).1 sid B).1 sid now
      = ((setOp (setOp tbl sid A).1 sid B).1, .ok (some B)) := by
  refine ⟨rfl, lookupRow_upsertRow_self _ _ _, ?_⟩
  exact getSession_live _ _ _ _
    ⟨stringify B, c, lookupRow_upsertRow_self _ _ _, stringify_ne_empty B,
     parse_stringify B hwf, hc, hlive⟩

/-- Claim C7 witness: two writes to one id, then a fetch returning the last
write. -/
theorem claim_c7_witness :
    lookupRow (setOp (setOp [] ("s1") (.obj [(("data"), JVal.str ("a"))])).1 ("s1")
        exSessionLive).1 ("s1") = some (stringify exSessionLive) ∧
    getSession (setOp (setOp [] ("s1") (.obj [(("data"), JVal.str ("a"))])).1 ("s1")
        exSessionLive).1 ("s1") exNow
      = ((setOp (setOp [] ("s1") (.obj [(("data"), JVal.str ("a"))])).1 ("s1")
          exSessionLive).1, .ok (some exSessionLive)) := by
  have h := claim_c7_theorem [] ("s1") exNow (.obj [(("data"), JVal.str ("a"))])
    exSessionLive exCookieLive rfl rfl
    (Or.inr (Or.inr ⟨("2999-01-01T00:00:00.000Z"), 32472144000000, rfl, rfl, by decide⟩))
  exact ⟨h.2.1, h.2.2⟩

/-- Claim C8: `touch` on an Absent or Expired session entry completes
successfully without writing — its table is exactly what the embedded
fetch left behind (identity when absent, the lazy reap when expired), and
afterwards no row for the id exists: `touch` never re-creates a deleted
session and never resurrects an expired one. -/
theorem claim_c8_theorem (tbl : Table) (sid : String) (s : JVal) (now : Int)
    (h : lookupRow tbl sid = none ∨ storedExpired tbl sid now) :
    touchOp tbl sid s now = ((getSession tbl sid now).1, .cb none) ∧
    lookupRow (touchOp tbl sid s now).1 sid = none := by
  rcases h with h | h
  · have hg := getSession_absent tbl sid now h
    have ht : touchOp tbl sid s now = (tbl, .cb none) := by rw [touchOp, hg]
    rw [ht, hg]
    exact ⟨rfl, h⟩
  · have hg := getSession_expired tbl sid now h
    have ht : touchOp tbl sid s now = (deleteRow tbl sid, .cb none) := by rw [touchOp, hg]
    rw [ht, hg]
    exact ⟨rfl, lookupRow_deleteRow tbl sid⟩

/-- Claim C8 witness: the theorem applied to an absent id and to a concrete
expired row. -/
theorem claim_c8_witness :
    (touchOp [] ("s1") (.obj [(cookieKey, exCookieLive)]) exNow
      = ((getSession [] ("s1") exNow).1, .cb none) ∧
     lookupRow (touchOp [] ("s1") (.obj [(cookieKey, exCookieLive)]) exNow).1 ("s1") = none) ∧
    (touchOp [(("s1"), stringify exSessionExpired)] ("s1")
        (.obj [(cookieKey, exCookieLive)]) exNow
      = ((getSession [(("s1"), stringify exSessionExpired)] ("s1") exNow).1, .cb none) ∧
     lookupRow (touchOp [(("s1"), stringify exSessionExpired)] ("s1")
        (.obj [(cookieKey, exCookieLive)]) exNow).1 ("s1") = none) := by
  refine ⟨claim_c8_theorem [] ("s1") _ exNow (Or.inl rfl), claim_c8_theorem _ ("s1") _ exNow (Or.inr ?_)⟩
  exact ⟨stringify exSessionExpired, exSessionExpired, exCookieExpired, rfl,
    stringify_ne_empty _, rfl, rfl,
    Or.inl ⟨("2000-01-01T00:00:00.000Z"), 946684800000, rfl, rfl, by decide⟩⟩

end SessionStore
